import Mathlib

/-!
Verification development for the CRISP / ContactSolver repository.

Part 1 embeds the pushbot example (`src/examples/pushbot/cpp/SolvePushbot.cpp`)
over the reals. Part 2 models the trust-region SCP solver core, whose sources
are not shipped in this tree, from the specification (spec.md §3, §4, §7).
-/

namespace CRISP

/-! ## Pushbot model constants (SolvePushbot.cpp, lines 9-20) -/

abbrev N : ℕ := 100

abbrev num_state : ℕ := 4

abbrev num_control : ℕ := 3

noncomputable def l : ℝ := 0.8

noncomputable def d1 : ℝ := 1.0

noncomputable def d2 : ℝ := 1.0

noncomputable def k1 : ℝ := 200.0

noncomputable def k2 : ℝ := 200.0

/-! ## pushbotObjective (SolvePushbot.cpp, lines 24-60)

The variable layout per time step is `num_state` state entries followed by
`num_control` control entries. -/

/-- The matrix Q built in `pushbotObjective`: zero except 100 on the four
diagonal entries. -/
noncomputable def Qmat : Fin num_state → Fin num_state → ℝ :=
  fun j k => if j = k then 100 else 0

/-- The matrix R built in `pushbotObjective`: zero except 0.001 at (0,0). -/
noncomputable def Rmat : Fin num_control → Fin num_control → ℝ :=
  fun j k => if j = 0 ∧ k = 0 then 0.001 else 0

/-- `state(j) = x(i * (num_state + num_control) + j)` in the objective loop. -/
noncomputable def stateOf (x : ℕ → ℝ) (i : ℕ) : Fin num_state → ℝ :=
  fun j => x (i * (num_state + num_control) + (j : ℕ))

/-- `control(j) = x(i * (num_state + num_control) + num_state + j)`. -/
noncomputable def controlOf (x : ℕ → ℝ) (i : ℕ) : Fin num_control → ℝ :=
  fun j => x (i * (num_state + num_control) + num_state + (j : ℕ))

/-- `v.transpose() * M * v` for a square matrix given as a function. -/
noncomputable def quadForm {n : ℕ} (M : Fin n → Fin n → ℝ) (v : Fin n → ℝ) : ℝ :=
  ∑ j, ∑ k, v j * M j k * v k

/-- The pushbot objective: terminal tracking cost `(state - p)ᵀ Q (state - p)`
added at `i = N - 1`, control cost `controlᵀ R control` added for `i < N - 1`,
exactly as the loop in `pushbotObjective` accumulates them. -/
noncomputable def pushbotObjective (x p : ℕ → ℝ) : ℝ :=
  (∑ i ∈ Finset.range N,
    if i = N - 1 then quadForm Qmat (fun j => stateOf x i j - p (j : ℕ)) else 0)
  + (∑ i ∈ Finset.range N,
    if i < N - 1 then quadForm Rmat (controlOf x i) else 0)

/-! ## pushBotContactConstraints (SolvePushbot.cpp, lines 103-120)

Output entry `6 * i + r` for `r < 6`; the six rows per time step are
`λ1, λ2, g1, g2, -(λ1 * g1), -(λ2 * g2)` with
`g1 = d1 - x_i - l * sin(θ_i) + λ1 / k1` and
`g2 = d2 + x_i + l * sin(θ_i) + λ2 / k2`. -/

/-- Row `r` of the 6-row contact block at time step `i`, reading
`x_i = x[idx+0]`, `θ_i = x[idx+1]`, `λ1_i = x[idx+5]`, `λ2_i = x[idx+6]`
with `idx = i * (num_state + num_control)`. -/
noncomputable def contactEntry (x : ℕ → ℝ) (i : ℕ) (r : ℕ) : ℝ :=
  match r with
  | 0 => x (i * (num_state + num_control) + 5)
  | 1 => x (i * (num_state + num_control) + 6)
  | 2 => d1 - x (i * (num_state + num_control) + 0)
         - l * Real.sin (x (i * (num_state + num_control) + 1))
         + x (i * (num_state + num_control) + 5) / k1
  | 3 => d2 + x (i * (num_state + num_control) + 0)
         + l * Real.sin (x (i * (num_state + num_control) + 1))
         + x (i * (num_state + num_control) + 6) / k2
  | 4 => -(x (i * (num_state + num_control) + 5) *
           (d1 - x (i * (num_state + num_control) + 0)
            - l * Real.sin (x (i * (num_state + num_control) + 1))
            + x (i * (num_state + num_control) + 5) / k1))
  | _ => -(x (i * (num_state + num_control) + 6) *
           (d2 + x (i * (num_state + num_control) + 0)
            + l * Real.sin (x (i * (num_state + num_control) + 1))
            + x (i * (num_state + num_control) + 6) / k2))

/-- The stacked contact residual vector of length `(N - 1) * 6`; entry `j`
belongs to time step `j / 6`, row `j % 6` of the block. -/
noncomputable def pushBotContactConstraints (x : ℕ → ℝ) (j : ℕ) : ℝ :=
  contactEntry x (j / 6) (j % 6)

/-- Inequality feasibility of the contact residuals: every entry of the
stacked vector is nonnegative. -/
def contactFeasible (x : ℕ → ℝ) : Prop :=
  ∀ j, j < (N - 1) * 6 → 0 ≤ pushBotContactConstraints x j

/-! ### Helper lemmas for the quadratic forms -/

lemma quadQ_eval (v : Fin num_state → ℝ) :
    quadForm Qmat v = 100 * (v 0 * v 0) + 100 * (v 1 * v 1)
      + 100 * (v 2 * v 2) + 100 * (v 3 * v 3) := by
  show (∑ j, ∑ k, v j * Qmat j k * v k) = _
  have h3 : ((3 : Fin num_state) : ℕ) = 3 := rfl
  simp only [Fin.sum_univ_four, Qmat]
  norm_num [Fin.ext_iff, h3]
  ring

lemma quadR_eval (v : Fin num_control → ℝ) :
    quadForm Rmat v = 0.001 * (v 0 * v 0) := by
  show (∑ j, ∑ k, v j * Rmat j k * v k) = _
  simp only [Fin.sum_univ_three, Rmat]
  norm_num [Fin.ext_iff]
  ring

lemma quadQ_nonneg (v : Fin num_state → ℝ) : 0 ≤ quadForm Qmat v := by
  rw [quadQ_eval]
  nlinarith [mul_self_nonneg (v 0), mul_self_nonneg (v 1),
    mul_self_nonneg (v 2), mul_self_nonneg (v 3)]

lemma quadR_nonneg (v : Fin num_control → ℝ) : 0 ≤ quadForm Rmat v := by
  rw [quadR_eval]
  nlinarith [mul_self_nonneg (v 0)]

/-- C10: The pushbot objective value is nonnegative for every input and
parameter vector: it is a sum of the positive-semidefinite tracking form
`eᵀ Q e` with `Q = diag(100,100,100,100)` and control forms `uᵀ R u` with
`R = diag(0.001,0,0)`. -/
theorem pushbotObjective_nonneg (x p : ℕ → ℝ) : 0 ≤ pushbotObjective x p := by
  unfold pushbotObjective
  have h1 : 0 ≤ ∑ i ∈ Finset.range N,
      (if i = N - 1 then quadForm Qmat (fun j => stateOf x i j - p (j : ℕ)) else 0) := by
    apply Finset.sum_nonneg
    intro i _
    split
    · exact quadQ_nonneg _
    · exact le_refl 0
  have h2 : 0 ≤ ∑ i ∈ Finset.range N,
      (if i < N - 1 then quadForm Rmat (controlOf x i) else 0) := by
    apply Finset.sum_nonneg
    intro i _
    split
    · exact quadR_nonneg _
    · exact le_refl 0
  linarith

/-- C9: When every contact residual is nonnegative, the complementarity
products vanish at every time step: row `6i` gives `λ1 ≥ 0`, row `6i+2`
gives `g1 ≥ 0`, row `6i+4` gives `-(λ1 * g1) ≥ 0`, and the three force
`λ1 * g1 = 0`; likewise for the second contact. -/
theorem contact_complementarity (x : ℕ → ℝ) (hf : contactFeasible x)
    (i : ℕ) (hi : i < N - 1) :
    x (i * (num_state + num_control) + 5) *
      (d1 - x (i * (num_state + num_control) + 0)
       - l * Real.sin (x (i * (num_state + num_control) + 1))
       + x (i * (num_state + num_control) + 5) / k1) = 0 ∧
    x (i * (num_state + num_control) + 6) *
      (d2 + x (i * (num_state + num_control) + 0)
       + l * Real.sin (x (i * (num_state + num_control) + 1))
       + x (i * (num_state + num_control) + 6) / k2) = 0 := by
  have hN : N - 1 = 99 := by norm_num [N]
  rw [hN] at hi
  have e0 : (6 * i + 0) / 6 = i := by omega
  have m0 : (6 * i + 0) % 6 = 0 := by omega
  have e2 : (6 * i + 2) / 6 = i := by omega
  have m2 : (6 * i + 2) % 6 = 2 := by omega
  have e4 : (6 * i + 4) / 6 = i := by omega
  have m4 : (6 * i + 4) % 6 = 4 := by omega
  have e1 : (6 * i + 1) / 6 = i := by omega
  have m1 : (6 * i + 1) % 6 = 1 := by omega
  have e3 : (6 * i + 3) / 6 = i := by omega
  have m3 : (6 * i + 3) % 6 = 3 := by omega
  have e5 : (6 * i + 5) / 6 = i := by omega
  have m5 : (6 * i + 5) % 6 = 5 := by omega
  have hb : ∀ r, r < 6 → 6 * i + r < (N - 1) * 6 := by
    intro r hr; rw [hN]; omega
  have h0 := hf (6 * i + 0) (hb 0 (by norm_num))
  have h2 := hf (6 * i + 2) (hb 2 (by norm_num))
  have h4 := hf (6 * i + 4) (hb 4 (by norm_num))
  have h1 := hf (6 * i + 1) (hb 1 (by norm_num))
  have h3 := hf (6 * i + 3) (hb 3 (by norm_num))
  have h5 := hf (6 * i + 5) (hb 5 (by norm_num))
  rw [pushBotContactConstraints, e0, m0] at h0
  rw [pushBotContactConstraints, e2, m2] at h2
  rw [pushBotContactConstraints, e4, m4] at h4
  rw [pushBotContactConstraints, e1, m1] at h1
  rw [pushBotContactConstraints, e3, m3] at h3
  rw [pushBotContactConstraints, e5, m5] at h5
  simp only [contactEntry] at h0 h1 h2 h3 h4 h5
  constructor
  · exact le_antisymm (by linarith) (mul_nonneg h0 h2)
  · exact le_antisymm (by linarith) (mul_nonneg h1 h3)

/-- Witness for C9 at the all-zero variable vector: every contact residual is
nonnegative there, and the complementarity products at time step 0 vanish. -/
theorem contact_complementarity_witness :
    contactFeasible (fun _ => 0) ∧
    ((fun (_ : ℕ) => (0 : ℝ)) (0 * (num_state + num_control) + 5) *
      (d1 - (fun (_ : ℕ) => (0 : ℝ)) (0 * (num_state + num_control) + 0)
       - l * Real.sin ((fun (_ : ℕ) => (0 : ℝ)) (0 * (num_state + num_control) + 1))
       + (fun (_ : ℕ) => (0 : ℝ)) (0 * (num_state + num_control) + 5) / k1) = 0 ∧
    (fun (_ : ℕ) => (0 : ℝ)) (0 * (num_state + num_control) + 6) *
      (d2 + (fun (_ : ℕ) => (0 : ℝ)) (0 * (num_state + num_control) + 0)
       + l * Real.sin ((fun (_ : ℕ) => (0 : ℝ)) (0 * (num_state + num_control) + 1))
       + (fun (_ : ℕ) => (0 : ℝ)) (0 * (num_state + num_control) + 6) / k2) = 0) := by
  have hfeas : contactFeasible (fun _ => 0) := by
    intro j hj
    rw [pushBotContactConstraints]
    have h6 : j % 6 = 0 ∨ j % 6 = 1 ∨ j % 6 = 2 ∨ j % 6 = 3 ∨ j % 6 = 4 ∨ j % 6 = 5 := by
      omega
    rcases h6 with h | h | h | h | h | h <;>
      rw [h] <;> simp [contactEntry, d1, d2, k1, k2, l] <;> norm_num
  exact ⟨hfeas, contact_complementarity (fun _ => 0) hfeas 0 (by norm_num [N])⟩

/-! ## Solver-core model

The solver core (OptimizationProblem, SparseAssembler, TrustRegionSCPSolver)
is not shipped in this source tree (only the pushbot example that calls it
is). The definitions below are therefore modelled from the specification. -/

/-- Modelled from the spec: the error taxonomy of §7 — `ConfigurationError`
kinds. The solver sources are absent from this tree. -/
inductive ConfigKind
  | Duplicate
deriving DecidableEq

/-- Modelled from the spec: the error taxonomy of §7 — `NotFoundError`
kinds. The solver sources are absent from this tree. -/
inductive NotFoundKind
  | NotSolved
  | UnknownKey
deriving DecidableEq

/-- Modelled from the spec: the error taxonomy of §7. The solver sources are
absent from this tree. -/
inductive SolverError
  | ConfigurationError (k : ConfigKind)
  | NotFoundError (k : NotFoundKind)
  | InvalidStateError
  | DimensionMismatch
deriving DecidableEq

/-- Modelled from the spec: an `ObjectiveFunction` handle (§3) producing a
scalar value and its gradient at an iterate. The solver sources are absent
from this tree. -/
structure ObjectiveModel where
  val : List ℚ → ℚ
  grad : List ℚ → List ℚ

/-- Modelled from the spec: a `ConstraintFunction` handle (§3, §6) exposing a
stable per-row sparsity pattern (`colIdxRows`), the per-row numeric Jacobian
values at an iterate (`valRows`), and the residual vector (`resid`). The
solver sources are absent from this tree. -/
structure HandleModel where
  colIdxRows : List (List ℕ)
  valRows : List ℚ → List (List ℚ)
  resid : List ℚ → List ℚ

/-- Modelled from the spec: `OptimizationProblem` (§3, §4.2) — exactly one
optional objective plus ordered lists of equality and inequality constraint
handles. The solver sources are absent from this tree. -/
structure ProblemModel where
  n : ℕ
  objective : Option ObjectiveModel
  eqConstraints : List HandleModel
  ineqConstraints : List HandleModel

/-- Modelled from the spec: `addObjective` succeeds only once; a second call
fails `ConfigurationError(Duplicate)` (§4.2). -/
def addObjective (P : ProblemModel) (o : ObjectiveModel) :
    Except SolverError ProblemModel :=
  match P.objective with
  | none => .ok { P with objective := some o }
  | some _ => .error (.ConfigurationError .Duplicate)

/-- Modelled from the spec: `addEqualityConstraint` appends, preserving call
order (§4.2). -/
def addEqualityConstraint (P : ProblemModel) (h : HandleModel) : ProblemModel :=
  { P with eqConstraints := P.eqConstraints ++ [h] }

/-- Modelled from the spec: `addInequalityConstraint` appends, preserving
call order (§4.2). -/
def addInequalityConstraint (P : ProblemModel) (h : HandleModel) : ProblemModel :=
  { P with ineqConstraints := P.ineqConstraints ++ [h] }

/-- A compressed-row sparse matrix: row pointers, column indices, values. -/
structure SparseCSR where
  rowPtr : List ℕ
  colIdx : List ℕ
  vals : List ℚ
deriving DecidableEq

/-- Row pointers of a row-structured matrix: running prefix sums of the row
lengths, starting from `acc`. -/
def rowPtrOf (acc : ℕ) : List (List ℕ) → List ℕ
  | [] => [acc]
  | r :: rs => acc :: rowPtrOf (acc + r.length) rs

/-- The fixed column-index rows of the stacked Jacobian of a handle list, in
list-append order. -/
def stackedPatternRows (hs : List HandleModel) : List (List ℕ) :=
  (hs.map HandleModel.colIdxRows).flatten

/-- The numeric value rows of the stacked Jacobian at an iterate, in
list-append order. -/
def stackedValueRows (hs : List HandleModel) (x : List ℚ) : List (List ℚ) :=
  (hs.map (fun h => h.valRows x)).flatten

/-- Modelled from the spec: `SparseAssembler.assemble` (§4.3) — the CSR
structure (row pointers, column indices) comes from the fixed per-handle
sparsity patterns only; the value array is refreshed from the iterate. The
solver sources are absent from this tree. -/
def assembleStacked (hs : List HandleModel) (x : List ℚ) : SparseCSR :=
  { rowPtr := rowPtrOf 0 (stackedPatternRows hs)
    colIdx := (stackedPatternRows hs).flatten
    vals := (stackedValueRows hs x).flatten }

/-- The stacked equality Jacobian of the problem at an iterate. -/
def assembleEq (P : ProblemModel) (x : List ℚ) : SparseCSR :=
  assembleStacked P.eqConstraints x

/-- The stacked inequality Jacobian of the problem at an iterate. -/
def assembleIneq (P : ProblemModel) (x : List ℚ) : SparseCSR :=
  assembleStacked P.ineqConstraints x

/-- Extracting a middle block from the flattened row list: dropping the total
length of the preceding blocks and taking the block's length returns exactly
that block. -/
lemma flatten_block {α β : Type} (f : β → List α) (pre : List β) (h : β)
    (post : List β) :
    ((((pre ++ h :: post).map f).flatten).drop
        ((pre.map (fun g => (f g).length)).sum)).take (f h).length = f h := by
  rw [List.map_append, List.flatten_append, List.map_cons, List.flatten_cons]
  have hlen : ((pre.map f).flatten).length
      = (pre.map (fun g => (f g).length)).sum := by
    rw [List.length_flatten, List.map_map]
    rfl
  rw [← hlen, List.drop_left, List.take_left]

/-- C2: For a fixed problem, the assembled stacked sparse matrices have
identical row-pointer and column-index structure at any two distinct
iterates; only the value arrays can differ, because the structure is derived
from the problem's fixed sparsity patterns alone. -/
theorem assemble_structure_fixed (P : ProblemModel) (x x' : List ℚ)
    (_hne : x ≠ x') :
    (assembleEq P x).rowPtr = (assembleEq P x').rowPtr ∧
    (assembleEq P x).colIdx = (assembleEq P x').colIdx ∧
    (assembleIneq P x).rowPtr = (assembleIneq P x').rowPtr ∧
    (assembleIneq P x).colIdx = (assembleIneq P x').colIdx :=
  ⟨rfl, rfl, rfl, rfl⟩

/-- C4: `addEqualityConstraint`/`addInequalityConstraint` append to their
lists preserving call order, and in the assembled stacked Jacobian the row
block of any handle occupies exactly the rows after the blocks of the handles
added before it — the assembler never re-sorts rows. -/
theorem rowBlocks_in_call_order (P : ProblemModel) (hM : HandleModel)
    (x : List ℚ) (pre post : List HandleModel) (h : HandleModel) :
    (addEqualityConstraint P hM).eqConstraints = P.eqConstraints ++ [hM] ∧
    (addInequalityConstraint P hM).ineqConstraints = P.ineqConstraints ++ [hM] ∧
    (P.eqConstraints = pre ++ h :: post →
      ((stackedValueRows P.eqConstraints x).drop
          ((pre.map (fun g => (g.valRows x).length)).sum)).take
        (h.valRows x).length = h.valRows x) ∧
    (P.ineqConstraints = pre ++ h :: post →
      ((stackedValueRows P.ineqConstraints x).drop
          ((pre.map (fun g => (g.valRows x).length)).sum)).take
        (h.valRows x).length = h.valRows x) := by
  refine ⟨rfl, rfl, ?_, ?_⟩
  · intro he
    rw [stackedValueRows, he]
    exact flatten_block (fun g => g.valRows x) pre h post
  · intro he
    rw [stackedValueRows, he]
    exact flatten_block (fun g => g.valRows x) pre h post

/-- C7: On a problem with no objective yet, `addObjective` succeeds and binds
it; a subsequent `addObjective` on the result fails with
`ConfigurationError(Duplicate)` and the previously bound objective is still
the first one. -/
theorem addObjective_once (P : ProblemModel) (o o' : ObjectiveModel)
    (h : P.objective = none) :
    addObjective P o = .ok { P with objective := some o } ∧
    ({ P with objective := some o } : ProblemModel).objective = some o ∧
    addObjective { P with objective := some o } o'
      = .error (.ConfigurationError .Duplicate) := by
  refine ⟨?_, rfl, rfl⟩
  rw [addObjective, h]

/-! ### Concrete fixtures for the witnesses -/

/-- A one-row constraint handle used as a concrete fixture. -/
def handle0 : HandleModel :=
  { colIdxRows := [[0]], valRows := fun _ => [[1]], resid := fun x => x }

/-- A concrete one-variable problem with one equality and one inequality
constraint handle. -/
def problem0 : ProblemModel :=
  { n := 1, objective := none, eqConstraints := [handle0],
    ineqConstraints := [handle0] }

/-- A concrete objective fixture. -/
def objective0 : ObjectiveModel := { val := fun _ => 0, grad := fun _ => [] }

/-- Witness for C2 at the concrete problem and the distinct iterates `[0]`
and `[1]`. -/
theorem assemble_structure_fixed_witness :
    ([(0 : ℚ)] ≠ [(1 : ℚ)]) ∧
    ((assembleEq problem0 [0]).rowPtr = (assembleEq problem0 [1]).rowPtr ∧
     (assembleEq problem0 [0]).colIdx = (assembleEq problem0 [1]).colIdx ∧
     (assembleIneq problem0 [0]).rowPtr = (assembleIneq problem0 [1]).rowPtr ∧
     (assembleIneq problem0 [0]).colIdx = (assembleIneq problem0 [1]).colIdx) :=
  ⟨by decide, assemble_structure_fixed problem0 [0] [1] (by decide)⟩

/-- Witness for C4 at the concrete problem, extracting the single block. -/
theorem rowBlocks_in_call_order_witness :
    (addEqualityConstraint problem0 handle0).eqConstraints
      = problem0.eqConstraints ++ [handle0] ∧
    (addInequalityConstraint problem0 handle0).ineqConstraints
      = problem0.ineqConstraints ++ [handle0] ∧
    ((stackedValueRows problem0.eqConstraints [0]).drop
        ((([] : List HandleModel).map
          (fun g => (g.valRows [0]).length)).sum)).take
      (handle0.valRows [0]).length = handle0.valRows [0] ∧
    ((stackedValueRows problem0.ineqConstraints [0]).drop
        ((([] : List HandleModel).map
          (fun g => (g.valRows [0]).length)).sum)).take
      (handle0.valRows [0]).length = handle0.valRows [0] :=
  ⟨(rowBlocks_in_call_order problem0 handle0 [0] [] [] handle0).1,
   (rowBlocks_in_call_order problem0 handle0 [0] [] [] handle0).2.1,
   (rowBlocks_in_call_order problem0 handle0 [0] [] [] handle0).2.2.1 rfl,
   (rowBlocks_in_call_order problem0 handle0 [0] [] [] handle0).2.2.2 rfl⟩

/-- Witness for C7 at a concrete empty problem and objective. -/
theorem addObjective_once_witness :
    addObjective problem0 objective0
      = .ok { problem0 with objective := some objective0 } ∧
    ({ problem0 with objective := some objective0 } : ProblemModel).objective
      = some objective0 ∧
    addObjective { problem0 with objective := some objective0 } objective0
      = .error (.ConfigurationError .Duplicate) :=
  addObjective_once problem0 objective0 objective0 rfl

/-! ## TrustRegionSCPSolver model (spec §4.4, §7)

The solver sources are absent from this tree; the state machine below is
modelled from the specification, with the external QP collaborator and the
merit/violation evaluations abstracted as an oracle. Numbers are rationals
so every run is exactly computable. -/

/-- Modelled from the spec: terminal failure reasons (§4.4, §7). -/
inductive FailReason
  | NotConverged
  | QPInfeasible
deriving DecidableEq

/-- Modelled from the spec: solver lifecycle phases
{Uninitialized, Ready, Iterating, Converged, Failed} (§4.4). -/
inductive Phase
  | Uninitialized
  | Ready
  | Iterating
  | Converged
  | Failed (r : FailReason)
deriving DecidableEq

/-- Modelled from the spec: one history entry — iterate, radius entering and
leaving the iteration, penalty, acceptance flag, objective and violation
(§3 SolverState, §4.4 step 7). -/
structure Snapshot where
  x : List ℚ
  deltaBefore : ℚ
  deltaAfter : ℚ
  mu : ℚ
  accepted : Bool
  objVal : ℚ
  violVal : ℚ
deriving DecidableEq

/-- Modelled from the spec: `SolverState` — current iterate, trust-region
radius, penalty weight, iteration counter, phase, history (§3). -/
structure SolverState where
  x : List ℚ
  delta : ℚ
  mu : ℚ
  iter : ℕ
  phase : Phase
  history : List Snapshot
deriving DecidableEq

/-- Modelled from the spec: the recognized hyperparameters (§3) plus the
radius/penalty adaptation constants of §4.4. -/
structure HyperParams where
  trustRegionTol : ℚ
  trailTol : ℚ
  maxIter : ℕ
  delta0 : ℚ
  deltaMax : ℚ
  mu0 : ℚ
  muMax : ℚ
  growThresh : ℚ
  growFactor : ℚ
  shrinkFactor : ℚ
  qpShrinkFactor : ℚ
  qpMaxRetry : ℕ
  feasTol : ℚ
  stepTol : ℚ
  weightedTolFactor : ℚ
deriving DecidableEq

/-- Modelled from the spec: the external collaborators of one iteration — the
QP solve (returning a step, or `none` on infeasible/unbounded), the merit
reduction ratio ρ, the constraint violation, and the objective (§4.4, §6). -/
structure OracleModel where
  qp : List ℚ → ℚ → Option (List ℚ)
  rho : List ℚ → List ℚ → ℚ
  viol : List ℚ → ℚ
  objv : List ℚ → ℚ

/-- Componentwise sum of the iterate and the step: `x_trial = x_k + step`. -/
def zipAdd (a b : List ℚ) : List ℚ := List.zipWith (fun u v => u + v) a b

/-- The step norm used by the convergence test. -/
def stepNorm (s : List ℚ) : ℚ := (s.map (fun a => |a|)).sum

/-- Modelled from the spec: submit to the QP collaborator; on
infeasible/unbounded shrink the radius by the fixed factor and retry, up to
the fuel bound; return the step together with the radius at which it was
obtained (§4.4 step 2). -/
def qpRetryLoop (O : OracleModel) (H : HyperParams) (x : List ℚ) :
    ℚ → ℕ → Option (List ℚ × ℚ)
  | _, 0 => none
  | d, fuel + 1 =>
    match O.qp x d with
    | some st => some (st, d)
    | none => qpRetryLoop O H x (H.qpShrinkFactor * d) fuel

/-- Modelled from the spec: the ratio test — accept exactly when
ρ ≥ trailTol (§4.4 step 4). -/
def acceptStep (H : HyperParams) (r : ℚ) : Bool := H.trailTol ≤ r

/-- Modelled from the spec: the radius update — on acceptance grow up to the
cap `deltaMax` when ρ is large, otherwise keep; on rejection shrink
(§4.4 step 4). -/
def nextDelta (H : HyperParams) (r dcur : ℚ) : ℚ :=
  if acceptStep H r then
    if H.growThresh < r then min (H.growFactor * dcur) H.deltaMax else dcur
  else H.shrinkFactor * dcur

/-- Modelled from the spec: penalty adaptation — when the violation fails to
decrease and μ is below its cap, scale μ by `weightedTolFactor`
(§4.4 step 5). -/
def nextMu (O : OracleModel) (H : HyperParams) (xOld xNew : List ℚ)
    (m : ℚ) : ℚ :=
  if O.viol xOld ≤ O.viol xNew ∧ m < H.muMax then H.weightedTolFactor * m
  else m

/-- Modelled from the spec: the convergence test — radius below
`trustRegionTol`, violation below the feasibility tolerance, step norm below
tolerance (§4.4 step 6). -/
def convergedTest (O : OracleModel) (H : HyperParams) (xNew : List ℚ)
    (dNew : ℚ) (st : List ℚ) : Bool :=
  decide (dNew < H.trustRegionTol) && decide (O.viol xNew < H.feasTol) &&
    decide (stepNorm st < H.stepTol)

/-- Modelled from the spec: one solver iteration — QP solve with bounded
retries (failure yields `Failed QPInfeasible`), ratio test, radius and
penalty update, convergence check, history append, counter increment
(§4.4 steps 1-7). -/
def iterateStep (O : OracleModel) (H : HyperParams) (s : SolverState) :
    SolverState :=
  match qpRetryLoop O H s.x s.delta (H.qpMaxRetry + 1) with
  | none => { s with phase := .Failed .QPInfeasible }
  | some (st, dcur) =>
    let r := O.rho s.x st
    let xNew := if acceptStep H r then zipAdd s.x st else s.x
    let dNew := nextDelta H r dcur
    let muNew := nextMu O H s.x xNew s.mu
    { x := xNew, delta := dNew, mu := muNew, iter := s.iter + 1,
      phase := if convergedTest O H xNew dNew st then .Converged
               else .Iterating,
      history := s.history ++
        [{ x := xNew, deltaBefore := s.delta, deltaAfter := dNew,
           mu := muNew, accepted := acceptStep H r, objVal := O.objv xNew,
           violVal := O.viol xNew }] }

/-- Modelled from the spec: the solve loop — terminate with
`Failed NotConverged` once the counter reaches `maxIter`, otherwise keep
iterating until the phase leaves `Iterating` (§4.4 step 6). -/
def solveLoop (O : OracleModel) (H : HyperParams) :
    ℕ → SolverState → SolverState
  | 0, s => s
  | fuel + 1, s =>
    if s.phase = .Iterating then
      if H.maxIter ≤ s.iter then { s with phase := .Failed .NotConverged }
      else solveLoop O H fuel (iterateStep O H s)
    else s

/-- Modelled from the spec: `solve()` — valid only from `Ready`
(otherwise `InvalidStateError`), moves to `Iterating` and loops (§4.4). -/
def solve (O : OracleModel) (H : HyperParams) (s : SolverState) :
    Except SolverError SolverState :=
  if s.phase = .Ready then
    .ok (solveLoop O H (H.maxIter + 1) { s with phase := .Iterating })
  else .error .InvalidStateError

/-- Modelled from the spec: `construct(problem, hyperparams)` yields the
`Uninitialized` phase (§4.4). -/
def construct : SolverState :=
  { x := [], delta := 0, mu := 0, iter := 0, phase := .Uninitialized,
    history := [] }

/-- Modelled from the spec: `initialize(x0)` — dimension check, then
`x_k = x0`, `Δ_k = Δ₀`, `μ_k = μ₀`, counter 0, phase `Ready` (§4.4). -/
def initSolver (H : HyperParams) (n : ℕ) (x0 : List ℚ) (_s : SolverState) :
    Except SolverError SolverState :=
  if x0.length = n then
    .ok { x := x0, delta := H.delta0, mu := H.mu0, iter := 0,
          phase := .Ready, history := [] }
  else .error .DimensionMismatch

/-- Modelled from the spec: `resetProblem(x0)` — discard the solver state and
return to `Ready` with a fresh `x0`, retaining the compiled handles and the
current parameters/hyperparameters (§3 Lifecycle, §4.4). -/
def resetProblem (H : HyperParams) (n : ℕ) (x0 : List ℚ)
    (_s : SolverState) : Except SolverError SolverState :=
  if x0.length = n then
    .ok { x := x0, delta := H.delta0, mu := H.mu0, iter := 0,
          phase := .Ready, history := [] }
  else .error .DimensionMismatch

/-- The sequence of accepted iterates recorded in the history. -/
def acceptedIterates (s : SolverState) : List (List ℚ) :=
  (s.history.filter (fun r => r.accepted)).map Snapshot.x

/-- Whether a phase is terminal ({Converged, Failed}). -/
def isTerminal : Phase → Bool
  | .Converged => true
  | .Failed _ => true
  | _ => false

/-- Modelled from the spec: the value `getSolution()` returns — the last
accepted iterate and the full history (§4.4). -/
structure SolutionModel where
  x : List ℚ
  history : List Snapshot
deriving DecidableEq

/-- Modelled from the spec: `getSolution()` as a state transformer — valid
only after at least one completed iteration in {Converged, Failed}, otherwise
`NotFoundError(NotSolved)`; the state component is what the call leaves
behind (§4.4). -/
def getSolutionS (s : SolverState) :
    (Except SolverError SolutionModel) × SolverState :=
  if isTerminal s.phase ∧ 1 ≤ s.iter then (.ok ⟨s.x, s.history⟩, s)
  else (.error (.NotFoundError .NotSolved), s)

/-! ### Radius law (C1) -/

/-- The per-iteration radius law: a rejected step never increases the radius;
an accepted step never leaves the radius above the cap. -/
def radiusOk (H : HyperParams) (r : Snapshot) : Prop :=
  (r.accepted = false → r.deltaAfter ≤ r.deltaBefore) ∧
  (r.accepted = true → r.deltaAfter ≤ H.deltaMax)

/-- Sanity of the adaptation constants: shrink factors in (0,1], a
nonnegative growth factor, and an initial radius within [0, deltaMax]. -/
def HyperSane (H : HyperParams) : Prop :=
  0 < H.shrinkFactor ∧ H.shrinkFactor ≤ 1 ∧ 0 < H.qpShrinkFactor ∧
  H.qpShrinkFactor ≤ 1 ∧ 0 ≤ H.growFactor ∧ 0 ≤ H.delta0 ∧
  H.delta0 ≤ H.deltaMax

lemma qpRetryLoop_radius_le (O : OracleModel) (H : HyperParams) (x : List ℚ)
    (h0 : 0 < H.qpShrinkFactor) (h1 : H.qpShrinkFactor ≤ 1) :
    ∀ fuel d st dcur, 0 ≤ d → qpRetryLoop O H x d fuel = some (st, dcur) →
      0 ≤ dcur ∧ dcur ≤ d := by
  intro fuel
  induction fuel with
  | zero =>
    intro d st dcur _ h
    simp [qpRetryLoop] at h
  | succ n ih =>
    intro d st dcur hd h
    rw [qpRetryLoop] at h
    cases hq : O.qp x d with
    | some st0 =>
      rw [hq] at h
      simp only [Option.some.injEq, Prod.mk.injEq] at h
      exact ⟨h.2 ▸ hd, h.2 ▸ le_refl d⟩
    | none =>
      rw [hq] at h
      have hrec := ih (H.qpShrinkFactor * d) st dcur
        (mul_nonneg h0.le hd) h
      refine ⟨hrec.1, le_trans hrec.2 ?_⟩
      calc H.qpShrinkFactor * d ≤ 1 * d := by nlinarith
    _ = d := one_mul d

lemma iterateStep_radius_inv (O : OracleModel) (H : HyperParams)
    (s : SolverState) (hH : HyperSane H)
    (hd0 : 0 ≤ s.delta) (hdM : s.delta ≤ H.deltaMax)
    (hh : ∀ r ∈ s.history, radiusOk H r) :
    (0 ≤ (iterateStep O H s).delta ∧
      (iterateStep O H s).delta ≤ H.deltaMax) ∧
    ∀ r ∈ (iterateStep O H s).history, radiusOk H r := by
  obtain ⟨hs, hs1, hq0, hq1, hg, hd00, hdmm⟩ := hH
  have hdmax0 : 0 ≤ H.deltaMax := le_trans hd00 hdmm
  cases hq : qpRetryLoop O H s.x s.delta (H.qpMaxRetry + 1) with
  | none =>
    unfold iterateStep
    rw [hq]
    exact ⟨⟨hd0, hdM⟩, hh⟩
  | some p =>
    obtain ⟨st, dcur⟩ := p
    obtain ⟨hdc0, hdcle⟩ :=
      qpRetryLoop_radius_le O H s.x hq0 hq1 _ _ _ _ hd0 hq
    have hkey : (0 ≤ nextDelta H (O.rho s.x st) dcur ∧
        nextDelta H (O.rho s.x st) dcur ≤ H.deltaMax) ∧
        (acceptStep H (O.rho s.x st) = false →
          nextDelta H (O.rho s.x st) dcur ≤ s.delta) := by
      unfold nextDelta
      by_cases ha : acceptStep H (O.rho s.x st) = true
      · rw [if_pos ha]
        by_cases hgr : H.growThresh < O.rho s.x st
        · rw [if_pos hgr]
          exact ⟨⟨le_min (mul_nonneg hg hdc0) hdmax0, min_le_right _ _⟩,
            fun hfalse => absurd ha (by simp [hfalse])⟩
        · rw [if_neg hgr]
          exact ⟨⟨hdc0, le_trans hdcle hdM⟩,
            fun hfalse => absurd ha (by simp [hfalse])⟩
      · rw [if_neg ha]
        have hle : H.shrinkFactor * dcur ≤ dcur :=
          mul_le_of_le_one_left hdc0 hs1
        exact ⟨⟨mul_nonneg hs.le hdc0,
          le_trans hle (le_trans hdcle hdM)⟩,
          fun _ => le_trans hle hdcle⟩
    unfold iterateStep
    rw [hq]
    refine ⟨⟨hkey.1.1, hkey.1.2⟩, ?_⟩
    intro r hr
    rw [List.mem_append] at hr
    cases hr with
    | inl hmem => exact hh r hmem
    | inr hmem =>
      rw [List.mem_singleton] at hmem
      subst hmem
      exact ⟨fun hrej => le_trans (hkey.2 hrej) (le_refl s.delta),
        fun _ => hkey.1.2⟩

lemma solveLoop_radius_inv (O : OracleModel) (H : HyperParams)
    (hH : HyperSane H) :
    ∀ fuel s, 0 ≤ s.delta → s.delta ≤ H.deltaMax →
      (∀ r ∈ s.history, radiusOk H r) →
      ∀ r ∈ (solveLoop O H fuel s).history, radiusOk H r := by
  intro fuel
  induction fuel with
  | zero =>
    intro s _ _ hh
    simpa [solveLoop] using hh
  | succ n ih =>
    intro s hd0 hdM hh
    rw [solveLoop]
    by_cases hp : s.phase = .Iterating
    · rw [if_pos hp]
      by_cases hi : H.maxIter ≤ s.iter
      · rw [if_pos hi]
        exact hh
      · rw [if_neg hi]
        have hstep := iterateStep_radius_inv O H s hH hd0 hdM hh
        exact ih (iterateStep O H s) hstep.1.1 hstep.1.2 hstep.2
    · rw [if_neg hp]
      exact hh

/-- C1: Along every `solve()` run from an initialized state, every recorded
iteration satisfies the radius law: a rejected step does not increase the
trust-region radius, and an accepted step leaves the updated radius at or
below the cap `deltaMax`. -/
theorem trustRegion_radius_law (O : OracleModel) (H : HyperParams) (n : ℕ)
    (x0 : List ℚ) (s0 s1 s2 : SolverState) (hH : HyperSane H)
    (hinit : initSolver H n x0 s0 = .ok s1)
    (hsolve : solve O H s1 = .ok s2) :
    ∀ r ∈ s2.history, radiusOk H r := by
  unfold initSolver at hinit
  by_cases hl : x0.length = n
  · rw [if_pos hl] at hinit
    have hs1 := Except.ok.inj hinit
    unfold solve at hsolve
    rw [← hs1] at hsolve
    rw [if_pos rfl] at hsolve
    have hs2 := Except.ok.inj hsolve
    rw [← hs2]
    exact solveLoop_radius_inv O H hH (H.maxIter + 1) _
      hH.2.2.2.2.2.1 hH.2.2.2.2.2.2 (by intro r hr; simp at hr)
  · rw [if_neg hl] at hinit
    exact absurd hinit (by simp)

/-! ### Concrete solver fixtures -/

instance exceptDecEq {ε α : Type} [DecidableEq ε] [DecidableEq α] :
    DecidableEq (Except ε α) := fun a b =>
  match a, b with
  | .ok x, .ok y =>
    if h : x = y then .isTrue (by rw [h])
    else .isFalse (fun hc => h (Except.ok.inj hc))
  | .error x, .error y =>
    if h : x = y then .isTrue (by rw [h])
    else .isFalse (fun hc => h (Except.error.inj hc))
  | .ok _, .error _ => .isFalse (fun hc => Except.noConfusion hc)
  | .error _, .ok _ => .isFalse (fun hc => Except.noConfusion hc)

instance hyperSaneDecidable (H : HyperParams) : Decidable (HyperSane H) := by
  unfold HyperSane
  infer_instance

/-- A concrete hyperparameter set for witnesses. -/
def hyper0 : HyperParams :=
  { trustRegionTol := 1/100, trailTol := 1/2, maxIter := 1, delta0 := 1,
    deltaMax := 2, mu0 := 1, muMax := 10, growThresh := 3/4, growFactor := 2,
    shrinkFactor := 1/2, qpShrinkFactor := 1/2, qpMaxRetry := 2,
    feasTol := 1/100, stepTol := 1/100, weightedTolFactor := 10 }

/-- A concrete oracle whose QP always returns the zero step. -/
def oracle0 : OracleModel :=
  { qp := fun _ _ => some [0], rho := fun _ _ => 1, viol := fun _ => 0,
    objv := fun _ => 0 }

/-- A concrete oracle whose QP always reports infeasible. -/
def oracleFail : OracleModel :=
  { qp := fun _ _ => none, rho := fun _ _ => 1, viol := fun _ => 0,
    objv := fun _ => 0 }

lemma solveLoop_succ (O : OracleModel) (H : HyperParams) (fuel : ℕ)
    (s : SolverState) :
    solveLoop O H (fuel + 1) s
      = if s.phase = .Iterating then
          if H.maxIter ≤ s.iter then { s with phase := .Failed .NotConverged }
          else solveLoop O H fuel (iterateStep O H s)
        else s := rfl

lemma iterateStep_concrete :
    iterateStep oracle0 hyper0 ⟨[0], 1, 1, 0, .Iterating, []⟩
      = ⟨[0], 2, 10, 1, .Iterating, [⟨[0], 1, 2, 10, true, 0, 0⟩]⟩ := by
  unfold iterateStep
  rw [show qpRetryLoop oracle0 hyper0
      (⟨[0], 1, 1, 0, .Iterating, []⟩ : SolverState).x
      (⟨[0], 1, 1, 0, .Iterating, []⟩ : SolverState).delta
      (hyper0.qpMaxRetry + 1) = some ([0], 1) from rfl]
  show (⟨_, _, _, _, _, _⟩ : SolverState) = _
  norm_num [acceptStep, nextDelta, nextMu, convergedTest, zipAdd, stepNorm,
    hyper0, oracle0]

lemma solve_concrete :
    solve oracle0 hyper0 ⟨[0], 1, 1, 0, .Ready, []⟩
      = .ok ⟨[0], 2, 10, 1, .Failed .NotConverged,
          [⟨[0], 1, 2, 10, true, 0, 0⟩]⟩ := by
  rw [solve, if_pos rfl]
  rw [show (hyper0.maxIter + 1) = 1 + 1 from rfl, solveLoop_succ]
  rw [if_pos rfl]
  rw [if_neg (by norm_num [hyper0])]
  rw [show ({ (⟨[0], 1, 1, 0, .Ready, []⟩ : SolverState) with
      phase := .Iterating } : SolverState)
    = ⟨[0], 1, 1, 0, .Iterating, []⟩ from rfl]
  rw [iterateStep_concrete]
  rw [show (1 : ℕ) = 0 + 1 from rfl, solveLoop_succ]
  rw [if_pos rfl]
  rw [if_pos (by norm_num [hyper0])]

/-- Witness for C1: a concrete run records the snapshot
`⟨[0], 1, 2, 10, true, 0, 0⟩`, which satisfies the radius law. -/
theorem trustRegion_radius_law_witness :
    radiusOk hyper0 ⟨[0], 1, 2, 10, true, 0, 0⟩ :=
  trustRegion_radius_law oracle0 hyper0 1 [0] construct
    ⟨[0], 1, 1, 0, .Ready, []⟩
    ⟨[0], 2, 10, 1, .Failed .NotConverged, [⟨[0], 1, 2, 10, true, 0, 0⟩]⟩
    (by norm_num [HyperSane, hyper0])
    (by simp [initSolver, hyper0]) solve_concrete
    ⟨[0], 1, 2, 10, true, 0, 0⟩ (by simp)

/-- C3: `resetProblem(x0)` followed by `solve()` produces exactly the accepted
trajectory of `initialize(x0)` + `solve()` on a freshly constructed solver
with the same hyperparameters and oracles. -/
theorem reset_matches_fresh_solve (O : OracleModel) (H : HyperParams)
    (n : ℕ) (x0 : List ℚ) (sOld s1 s2 : SolverState)
    (hreset : resetProblem H n x0 sOld = .ok s1)
    (hinit : initSolver H n x0 construct = .ok s2) :
    Except.map acceptedIterates (solve O H s1)
      = Except.map acceptedIterates (solve O H s2) := by
  unfold resetProblem at hreset
  unfold initSolver at hinit
  by_cases hl : x0.length = n
  · rw [if_pos hl] at hreset hinit
    rw [← Except.ok.inj hreset, ← Except.ok.inj hinit]
  · rw [if_neg hl] at hreset
    exact absurd hreset (by simp)

/-- Witness for C3: a concrete warm restart after a completed solve agrees
with the fresh solve. -/
theorem reset_matches_fresh_solve_witness :
    Except.map acceptedIterates
        (solve oracle0 hyper0 ⟨[0], 1, 1, 0, .Ready, []⟩)
      = Except.map acceptedIterates
        (solve oracle0 hyper0 ⟨[0], 1, 1, 0, .Ready, []⟩) :=
  reset_matches_fresh_solve oracle0 hyper0 1 [0]
    ⟨[0], 2, 10, 1, .Failed .NotConverged, [⟨[0], 1, 2, 10, true, 0, 0⟩]⟩
    ⟨[0], 1, 1, 0, .Ready, []⟩ ⟨[0], 1, 1, 0, .Ready, []⟩
    (by simp [resetProblem, hyper0]) (by simp [initSolver, hyper0])

/-- C5: An iteration ends in `Converged` exactly when the updated radius is
below `trustRegionTol` AND the violation at the new iterate is below the
feasibility tolerance AND the step norm is below tolerance; and once the
iteration counter has reached `maxIter` while still `Iterating`, the loop
declares `Failed NotConverged`. -/
theorem convergence_declaration (O : OracleModel) (H : HyperParams) :
    (∀ s st dcur,
      qpRetryLoop O H s.x s.delta (H.qpMaxRetry + 1) = some (st, dcur) →
      ((iterateStep O H s).phase = Phase.Converged ↔
        (nextDelta H (O.rho s.x st) dcur < H.trustRegionTol ∧
         O.viol (if acceptStep H (O.rho s.x st) then zipAdd s.x st else s.x)
           < H.feasTol ∧
         stepNorm st < H.stepTol))) ∧
    (∀ fuel s, s.phase = Phase.Iterating → H.maxIter ≤ s.iter →
      solveLoop O H (fuel + 1) s
        = { s with phase := Phase.Failed FailReason.NotConverged }) := by
  constructor
  · intro s st dcur hq
    unfold iterateStep
    rw [hq]
    simp only [convergedTest]
    by_cases hA : nextDelta H (O.rho s.x st) dcur < H.trustRegionTol <;>
      by_cases hB : O.viol (if acceptStep H (O.rho s.x st) then zipAdd s.x st
        else s.x) < H.feasTol <;>
      by_cases hC : stepNorm st < H.stepTol <;>
      simp [hA, hB, hC]
  · intro fuel s hp hi
    rw [solveLoop, if_pos hp, if_pos hi]

/-- Witness for C5: a concrete `Iterating` state at the iteration cap is
declared `Failed NotConverged` by the loop. -/
theorem convergence_declaration_witness :
    solveLoop oracle0 hyper0 1 ⟨[0], 1, 1, 5, .Iterating, []⟩
      = ⟨[0], 1, 1, 5, .Failed .NotConverged, []⟩ :=
  (convergence_declaration oracle0 hyper0).2 0
    ⟨[0], 1, 1, 5, .Iterating, []⟩ rfl (by decide)

/-- C6: The QP retry loop fails exactly when every submission within the
bound — at the radius shrunk k times by the fixed factor — is reported
infeasible; and when it fails, the iteration terminates the solver with
`Failed QPInfeasible`, changing nothing else. -/
theorem qp_failure_handling (O : OracleModel) (H : HyperParams) :
    (∀ x d fuel, qpRetryLoop O H x d fuel = none ↔
      ∀ k, k < fuel → O.qp x (H.qpShrinkFactor ^ k * d) = none) ∧
    (∀ s, qpRetryLoop O H s.x s.delta (H.qpMaxRetry + 1) = none →
      iterateStep O H s
        = { s with phase := Phase.Failed FailReason.QPInfeasible }) := by
  constructor
  · intro x d fuel
    induction fuel generalizing d with
    | zero => simp [qpRetryLoop]
    | succ n ih =>
      rw [qpRetryLoop]
      cases hq : O.qp x d with
      | some st =>
        simp only []
        constructor
        · intro hnone
          exact absurd hnone (by simp)
        · intro hall
          have h0 := hall 0 (Nat.succ_pos n)
          rw [pow_zero, one_mul] at h0
          exact absurd hq (h0 ▸ by simp)
      | none =>
        simp only []
        rw [ih (H.qpShrinkFactor * d)]
        constructor
        · intro hall k hk
          cases k with
          | zero =>
            rw [pow_zero, one_mul]
            exact hq
          | succ m =>
            have := hall m (by omega)
            rw [show H.qpShrinkFactor ^ (m + 1) * d
                = H.qpShrinkFactor ^ m * (H.qpShrinkFactor * d) by ring]
            exact this
        · intro hall k hk
          have := hall (k + 1) (by omega)
          rw [show H.qpShrinkFactor ^ k * (H.qpShrinkFactor * d)
              = H.qpShrinkFactor ^ (k + 1) * d by ring]
          exact this
  · intro s hq
    unfold iterateStep
    rw [hq]

/-- Witness for C6: with an oracle whose QP always reports infeasible, the
iteration fails with `QPInfeasible`. -/
theorem qp_failure_handling_witness :
    iterateStep oracleFail hyper0 ⟨[0], 1, 1, 0, .Iterating, []⟩
      = ⟨[0], 1, 1, 0, .Failed .QPInfeasible, []⟩ :=
  (qp_failure_handling oracleFail hyper0).2
    ⟨[0], 1, 1, 0, .Iterating, []⟩ (by decide)

/-- C8: On a terminal solver with at least one completed iteration, two
immediately successive `getSolution()` calls return identical results, and
neither call changes the solver state. -/
theorem getSolution_pure (s : SolverState) (h1 : isTerminal s.phase = true)
    (h2 : 1 ≤ s.iter) :
    (getSolutionS s).1 = .ok ⟨s.x, s.history⟩ ∧
    (getSolutionS s).2 = s ∧
    (getSolutionS (getSolutionS s).2).1 = (getSolutionS s).1 ∧
    (getSolutionS (getSolutionS s).2).2 = s := by
  simp [getSolutionS, h1, h2]

/-- Witness for C8 at a concrete converged state. -/
theorem getSolution_pure_witness :
    (getSolutionS ⟨[3], 1, 1, 2, .Converged, []⟩).1 = .ok ⟨[3], []⟩ ∧
    (getSolutionS ⟨[3], 1, 1, 2, .Converged, []⟩).2
      = ⟨[3], 1, 1, 2, .Converged, []⟩ ∧
    (getSolutionS (getSolutionS ⟨[3], 1, 1, 2, .Converged, []⟩).2).1
      = (getSolutionS ⟨[3], 1, 1, 2, .Converged, []⟩).1 ∧
    (getSolutionS (getSolutionS ⟨[3], 1, 1, 2, .Converged, []⟩).2).2
      = ⟨[3], 1, 1, 2, .Converged, []⟩ :=
  getSolution_pure ⟨[3], 1, 1, 2, .Converged, []⟩ (by decide) (by decide)

end CRISP
